import Mathlib

/-!
Shallow embedding of the core of data-castle/journal (Go) for checking its
natural-language specification.

Conventions of the embedding:
* Go `time.Time` is modelled as `GoTime`: an instant (`sec`, Unix seconds)
  together with the fixed UTC offset of its location (`offset`, seconds east
  of UTC).  Sub-second precision and DST transitions are abstracted away;
  with a fixed offset, Go `AddDate(0, 0, 1)` advances the instant by exactly
  86400 seconds, and `Format` renders the civil calendar date of
  `sec + offset`.
* Go maps are modelled as association lists with first-match lookup
  (`mapGet`), in-place replacement (`mapSet`) and key deletion (`mapDel`);
  a missing `[]string` bucket reads as the empty list (`bucketGet`), as the
  Go zero value does.
* File-system and encryption effects (SOPS) are external collaborators: they
  are modelled by explicit state (`TxFS`, `IdxFS`) and success/failure
  oracles (`StorageEnv`, `TxEnv`) whose outcomes the embedded control flow
  consumes exactly as the Go code consumes the corresponding `error` values.
* YAML serialisation of an `EntryV1` is modelled structurally: the document
  produced by `yaml.Marshal` carries exactly the fields of the struct, so the
  marshalled document is represented by the record itself and `ParseYaml`
  consumes such a document (`ParseYaml` on bytes that do not decode at all is
  outside this model).
-/

/-- Instant plus fixed location offset, modelling Go `time.Time` (seconds
precision, fixed-offset zone). -/
structure GoTime where
  sec : Int
  offset : Int
deriving DecidableEq

/-- Unix seconds of the Go zero time, January 1 of year 1, 00:00:00 UTC. -/
def goZeroSec : Int := -62135596800

/-- Model of Go `Time.IsZero`: the zero value has the zero instant and UTC. -/
def GoTime.IsZero (t : GoTime) : Bool :=
  t.sec == goZeroSec && t.offset == 0

/-- Civil days since 1970-01-01 of the calendar date the time renders as
(Go `Format` uses the wall clock of the location, i.e. `sec + offset`). -/
def GoTime.dayIndex (t : GoTime) : Int :=
  Int.ediv (t.sec + t.offset) 86400

/-- Seconds into the calendar day of the rendered wall clock. -/
def GoTime.timeOfDay (t : GoTime) : Int :=
  Int.emod (t.sec + t.offset) 86400

/-- Proleptic Gregorian (year, month, day) of a count of days since
1970-01-01 (Hinnant's civil-from-days algorithm, floor divisions). -/
def civilFromDays (z0 : Int) : Int × Int × Int :=
  let z := z0 + 719468
  let era : Int := Int.ediv z 146097
  let doe : Int := z - era * 146097
  let yoe : Int :=
    Int.ediv (doe - Int.ediv doe 1460 + Int.ediv doe 36524 - Int.ediv doe 146096) 365
  let y : Int := yoe + era * 400
  let doy : Int := doe - (365 * yoe + Int.ediv yoe 4 - Int.ediv yoe 100)
  let mp : Int := Int.ediv (5 * doy + 2) 153
  let d : Int := doy - Int.ediv (153 * mp + 2) 5 + 1
  let m : Int := mp + (if mp < 10 then 3 else -9)
  (y + (if m ≤ 2 then 1 else 0), m, d)

/-- Two-digit zero-padded rendering, as Go layout components `01` use. -/
def pad2 (n : Int) : String :=
  if 0 ≤ n ∧ n < 10 then "0" ++ toString n else toString n

/-- Four-digit zero-padded rendering, as the Go year layout `2006` uses. -/
def pad4 (n : Int) : String :=
  if 0 ≤ n ∧ n < 10 then "000" ++ toString n
  else if 0 ≤ n ∧ n < 100 then "00" ++ toString n
  else if 0 ≤ n ∧ n < 1000 then "0" ++ toString n
  else toString n

/-- Rendering `YYYY-MM-DD` of a civil day count, the body of Go
`Format("2006-01-02")`. -/
def dayString (z : Int) : String :=
  match civilFromDays z with
  | (y, m, d) => pad4 y ++ "-" ++ pad2 m ++ "-" ++ pad2 d

/-- Model of Go `t.Format("2006-01-02")`. -/
def GoTime.formatYMD (t : GoTime) : String :=
  dayString t.dayIndex

/-- Model of Go `t.Format("2006")`. -/
def GoTime.formatYear (t : GoTime) : String :=
  match civilFromDays t.dayIndex with
  | (y, _, _) => pad4 y

/-- Model of Go `t.Format("01")`. -/
def GoTime.formatMonth (t : GoTime) : String :=
  match civilFromDays t.dayIndex with
  | (_, m, _) => pad2 m

/-! Association-list model of Go maps. -/

/-- Lookup in a Go map: the (first) binding of the key, if any. -/
def mapGet {α : Type} (m : List (String × α)) (k : String) : Option α :=
  match m with
  | [] => none
  | (k', v) :: rest => if k' = k then some v else mapGet rest k

/-- Model of Go map assignment `m[k] = v`. -/
def mapSet {α : Type} (m : List (String × α)) (k : String) (v : α) :
    List (String × α) :=
  match m with
  | [] => [(k, v)]
  | (k', v') :: rest =>
    if k' = k then (k, v) :: rest else (k', v') :: mapSet rest k v

/-- Model of Go `delete(m, k)`. -/
def mapDel {α : Type} (m : List (String × α)) (k : String) :
    List (String × α) :=
  m.filter (fun p => p.1 ≠ k)

/-- Reading a `[]string`-valued map at `k`: a missing key reads as the Go
zero value, the empty slice. -/
def bucketGet (m : List (String × List String)) (k : String) : List String :=
  (mapGet m k).getD []

/-! The index data model (pkg/models/index.go). -/

/-- Version-agnostic entry metadata, `models.Metadata`. -/
structure Metadata where
  Id : String
  Date : GoTime
  Tags : List String
  FilePath : String
deriving DecidableEq

/-- The search index, `models.Index`. -/
structure Index where
  Version : String
  Entries : List (String × Metadata)
  ByDate : List (String × List String)
  ByTag : List (String × List String)
deriving DecidableEq

/-- Source `models.NewIndex`. -/
def NewIndex : Index :=
  { Version := "1.0", Entries := [], ByDate := [], ByTag := [] }

/-- Source helper `appendUnique`. -/
def appendUnique (slice : List String) (item : String) : List String :=
  if item ∈ slice then slice else slice ++ [item]

/-- Source helper `removeString`. -/
def removeString (slice : List String) (item : String) : List String :=
  slice.filter (fun s => s ≠ item)

/-- Source `Index.Add` (the `IndexableMetadata` argument is already projected
to its `Metadata` fields, as the Go body does first). -/
def Index.Add (idx : Index) (meta : Metadata) : Index :=
  let entries := mapSet idx.Entries meta.Id meta
  let dateKey := meta.Date.formatYMD
  let byDate := mapSet idx.ByDate dateKey
    (appendUnique (bucketGet idx.ByDate dateKey) meta.Id)
  let byTag := meta.Tags.foldl
    (fun bt tag => mapSet bt tag (appendUnique (bucketGet bt tag) meta.Id))
    idx.ByTag
  { idx with Entries := entries, ByDate := byDate, ByTag := byTag }

/-- Source `Index.Remove`. -/
def Index.Remove (idx : Index) (id : String) : Index :=
  match mapGet idx.Entries id with
  | none => idx
  | some meta =>
    let entries := mapDel idx.Entries id
    let dateKey := meta.Date.formatYMD
    let dateBucket := removeString (bucketGet idx.ByDate dateKey) id
    let byDate0 := mapSet idx.ByDate dateKey dateBucket
    let byDate := if dateBucket.length = 0 then mapDel byDate0 dateKey else byDate0
    let byTag := meta.Tags.foldl
      (fun bt tag =>
        let b := removeString (bucketGet bt tag) id
        let bt0 := mapSet bt tag b
        if b.length = 0 then mapDel bt0 tag else bt0)
      idx.ByTag
    { idx with Entries := entries, ByDate := byDate, ByTag := byTag }

/-- Source `Index.FindByDate`. -/
def Index.FindByDate (idx : Index) (date : GoTime) : List String :=
  bucketGet idx.ByDate date.formatYMD

/-- Appending each id of `ids` that is not yet in `acc` (the `seen` set of
the Go loop equals membership in the accumulated results). -/
def addUniqueAll (acc : List String) (ids : List String) : List String :=
  ids.foldl (fun acc id => if id ∈ acc then acc else acc ++ [id]) acc

/-- Day-iteration loop of `Index.FindByDateRange`: from `d`, while `d` is not
after `end`, collect the bucket of the rendered day and step one calendar day
(`AddDate(0,0,1)`, i.e. +86400 s in a fixed-offset zone). -/
def findByDateRangeLoop (idx : Index) (endSec : Int) (d : GoTime)
    (acc : List String) : List String :=
  if endSec < d.sec then acc
  else
    findByDateRangeLoop idx endSec { d with sec := d.sec + 86400 }
      (addUniqueAll acc (bucketGet idx.ByDate d.formatYMD))
termination_by (endSec + 86400 - d.sec).toNat
decreasing_by
  simp only [not_lt] at *
  omega

/-- Source `Index.FindByDateRange`. -/
def Index.FindByDateRange (idx : Index) (start curEnd : GoTime) : List String :=
  findByDateRangeLoop idx curEnd.sec start []

/-- Source `Index.GetMetadata`. -/
def Index.GetMetadata (idx : Index) (id : String) : Option Metadata :=
  mapGet idx.Entries id

/-! The versioned entry model (pkg/models/entry.go). -/

/-- Version-1 entry, `models.EntryV1` (metadata fields inlined, as the YAML
inline embedding does). -/
structure EntryV1 where
  Version : Int
  Id : String
  Date : GoTime
  Tags : List String
  FilePath : String
  Content : String
deriving DecidableEq

/-- Source `models.NewEntryV1`. -/
def NewEntryV1 (id : String) (date : GoTime) (content : String)
    (tags : List String) (filepath : String) : EntryV1 :=
  { Version := 1, Id := id, Date := date, Tags := tags, FilePath := filepath,
    Content := content }

/-- Projection of an entry to the version-agnostic index metadata (the
`MetadataV1` embedded struct seen through the `IndexableMetadata` getters). -/
def EntryV1.toMetadata (e : EntryV1) : Metadata :=
  { Id := e.Id, Date := e.Date, Tags := e.Tags, FilePath := e.FilePath }

/-- Source `EntryV1.ToYaml`: stamps the current schema version, then marshals.
The marshalled YAML document carries exactly the struct fields, so the
document is modelled by the stamped record itself. -/
def EntryV1.ToYaml (e : EntryV1) : EntryV1 :=
  { e with Version := 1 }

/-- Decode-time failures of `models.ParseYaml`, one constructor per
`fmt.Errorf` site (the byte-level failure of the version peek itself is
outside the structured-document model). -/
inductive ParseErr
  | unsupportedVersion (v : Int)
  | invalidVersionAfterDecode (v : Int)
  | idRequired
  | dateRequired
deriving DecidableEq

/-- Source `models.ParseYaml` on a structured version-1 document: peek the
version discriminator, dispatch, then validate required fields. -/
def ParseYaml (doc : EntryV1) : Except ParseErr EntryV1 :=
  if doc.Version = 1 then
    if doc.Version ≠ 1 then Except.error (ParseErr.invalidVersionAfterDecode doc.Version)
    else if doc.Id = "" then Except.error ParseErr.idRequired
    else if doc.Date.IsZero then Except.error ParseErr.dateRequired
    else Except.ok doc
  else
    Except.error (ParseErr.unsupportedVersion doc.Version)

/-! Storage (internal/storage/storage.go). -/

/-- Source `Storage.GetEntryPath`: `{year}/{month}/{id}.yaml` rendered from
the calendar components of `date` in its own location. -/
def Storage.GetEntryPath (date : GoTime) (id : String) : String :=
  date.formatYear ++ "/" ++ date.formatMonth ++ "/" ++ id ++ ".yaml"

/-- State of the persisted index artifact: absent, present but undecodable
(decrypt/parse failure message), or present with decoded content. -/
structure IdxFS where
  indexFile : Option (Except String Index)

/-- Source `Storage.LoadIndex`: a missing index file yields a fresh empty
index; an existing one is decrypted and parsed, with failures propagated. -/
def Storage.LoadIndex (fs : IdxFS) : Except String Index :=
  match fs.indexFile with
  | none => Except.ok NewIndex
  | some (Except.error e) =>
    Except.error ("failed to decrypt and parse index: " ++ e)
  | some (Except.ok idx) => Except.ok idx

deriving instance DecidableEq for Except

/-! Journal operations (internal/entry/journal.go). -/

/-- Outcomes of the storage collaborators a journal operation calls, modelling
`Storage.SaveEntry`, `Storage.SaveIndex`, `Storage.LoadEntry` and
`Storage.DeleteEntry` as success/failure oracles (`none` = success). -/
structure StorageEnv where
  saveEntry : EntryV1 → Option String
  saveIndex : Index → Option String
  loadEntry : String → String → Except String EntryV1
  deleteEntry : String → Option String

/-- Entry value `Journal.Add` builds before saving: fresh id, current time,
and the storage-relative path stamped into `FilePath`. -/
def mkAddEntry (content : String) (tags : List String) (now : GoTime)
    (newId : String) : EntryV1 :=
  let entry := NewEntryV1 newId now content tags ""
  { entry with FilePath := Storage.GetEntryPath entry.Date entry.Id }

/-- Result of `Journal.Add` together with the in-memory index it leaves
behind and whether it reached the `SaveIndex` persist call. -/
structure AddOutcome where
  result : Except String EntryV1
  index : Index
  indexPersistAttempted : Bool
deriving DecidableEq

/-- Source `Journal.Add`: build the entry, save it encrypted, then update the
in-memory index and persist the index; the first failure aborts. -/
def Journal.Add (env : StorageEnv) (idx : Index) (content : String)
    (tags : List String) (now : GoTime) (newId : String) : AddOutcome :=
  let entry := mkAddEntry content tags now newId
  match env.saveEntry entry with
  | some e =>
    { result := Except.error ("failed to save entry: " ++ e), index := idx,
      indexPersistAttempted := false }
  | none =>
    let idx' := idx.Add entry.toMetadata
    match env.saveIndex idx' with
    | some e =>
      { result := Except.error ("failed to save index: " ++ e), index := idx',
        indexPersistAttempted := true }
    | none =>
      { result := Except.ok entry, index := idx', indexPersistAttempted := true }

/-- Source `Journal.Get`: exact lookup of `id` in the index, then load and
decrypt the entry at the recorded path. -/
def Journal.Get (env : StorageEnv) (idx : Index) (id : String) :
    Except String EntryV1 :=
  match idx.GetMetadata id with
  | none => Except.error ("entry not found: " ++ id)
  | some meta =>
    match env.loadEntry id meta.FilePath with
    | Except.error e => Except.error ("failed to load entry: " ++ e)
    | Except.ok entry => Except.ok entry

/-- Result of `Journal.Delete` with the index it leaves behind and whether
the index persist call was reached. -/
structure DeleteOutcome where
  result : Option String
  index : Index
  indexPersistAttempted : Bool
deriving DecidableEq

/-- Source `Journal.Delete`: exact lookup of `id`, delete the ciphertext
file, remove from the index, persist the index. -/
def Journal.Delete (env : StorageEnv) (idx : Index) (id : String) :
    DeleteOutcome :=
  match idx.GetMetadata id with
  | none =>
    { result := some ("entry not found: " ++ id), index := idx,
      indexPersistAttempted := false }
  | some meta =>
    match env.deleteEntry meta.FilePath with
    | some e =>
      { result := some ("failed to delete entry: " ++ e), index := idx,
        indexPersistAttempted := false }
    | none =>
      let idx' := idx.Remove id
      match env.saveIndex idx' with
      | some e =>
        { result := some ("failed to save index: " ++ e), index := idx',
          indexPersistAttempted := true }
      | none =>
        { result := none, index := idx', indexPersistAttempted := true }

/-! The recipient-rotation transaction (internal/crypto/transaction.go and
the backup/restore helpers of internal/crypto/crypto.go). -/

/-- Source `crypto.FileError`. -/
structure FileError where
  FilePath : String
  Error : String
deriving DecidableEq

/-- Source `crypto.ReEncryptResult`. -/
structure ReEncryptResult where
  TotalFiles : Nat
  SuccessfulFiles : Nat
  FailedFiles : List FileError
  IndexSuccess : Bool
  IndexError : Option String
deriving DecidableEq

/-- Content of the two configuration files the transaction touches:
`.sops.yaml` (the recipient list it encodes) and its backup (`none` when the
backup file is absent). -/
structure TxFS where
  config : List String
  backup : Option (List String)
deriving DecidableEq

/-- Outcomes of the collaborators and file-system calls of one transaction
run: the injected `listEntriesFunc`, `reEncryptEntryFunc` (per path, `none` =
success) and `reEncryptIndexFunc`, and the success of each raw file write or
removal (`os.WriteFile` / `os.Remove`) the backup helpers perform. -/
structure TxEnv where
  listEntries : Except String (List String)
  reEncryptEntry : String → Option String
  reEncryptIndex : Option String
  backupWriteOk : Bool
  configWriteOk : Bool
  restoreWriteOk : Bool
  restoreRemoveOk : Bool
  finalRemoveOk : Bool

/-- Source `crypto.BackupSOPSConfig`: copy `.sops.yaml` to the backup path
(the config file exists in this state model, so the initial stat succeeds).
Returns the state and an error, `none` on success. -/
def BackupSOPSConfig (env : TxEnv) (fs : TxFS) : TxFS × Option String :=
  if env.backupWriteOk then ({ fs with backup := some fs.config }, none)
  else (fs, some "failed to write backup")

/-- Source `crypto.CreateSOPSConfig`: refuse an empty recipient list, then
write the rules document pairing the path patterns with the recipients
(recipient age-key validation is an external concern folded into
`configWriteOk`). -/
def CreateSOPSConfig (env : TxEnv) (fs : TxFS) (recipients : List String) :
    TxFS × Option String :=
  if recipients = [] then (fs, some "no recipients provided")
  else if env.configWriteOk then ({ fs with config := recipients }, none)
  else (fs, some "failed to write .sops.yaml")

/-- Source `crypto.RestoreSOPSConfig`: stat the backup, write its content
back over `.sops.yaml`, then remove the backup file; a failing step aborts
with the state it had reached. -/
def RestoreSOPSConfig (env : TxEnv) (fs : TxFS) : TxFS × Option String :=
  match fs.backup with
  | none => (fs, some "backup file not found")
  | some data =>
    if env.restoreWriteOk then
      let fs' := { fs with config := data }
      if env.restoreRemoveOk then ({ fs' with backup := none }, none)
      else (fs', some "failed to remove backup")
    else (fs, some "failed to restore .sops.yaml")

/-- Source `crypto.RemoveBackup`. -/
def RemoveBackup (env : TxEnv) (fs : TxFS) : TxFS × Option String :=
  match fs.backup with
  | none => (fs, some "failed to remove backup")
  | some _ =>
    if env.finalRemoveOk then ({ fs with backup := none }, none)
    else (fs, some "failed to remove backup")

/-- Step 4 loop body of `TransactionalReEncrypt`: try one file, recording
either the failure detail or one more success. -/
def reEncryptStep (env : TxEnv) (r : ReEncryptResult) (filePath : String) :
    ReEncryptResult :=
  match env.reEncryptEntry filePath with
  | some e =>
    { r with FailedFiles := r.FailedFiles ++ [{ FilePath := filePath, Error := e }] }
  | none => { r with SuccessfulFiles := r.SuccessfulFiles + 1 }

/-- What one transaction run produces: the Go return values (result record
and error), the file-system state it leaves, and the trace of paths it handed
to `reEncryptEntryFunc`, in call order. -/
structure TxOutcome where
  result : ReEncryptResult
  err : Option String
  fs : TxFS
  attempted : List String
deriving DecidableEq

/-- Source `crypto.TransactionalReEncrypt`: backup the config, commit the new
recipients, enumerate the record files, re-encrypt each one collecting
failures without aborting, re-encrypt the index, and either roll the config
back (restoring from the backup) when anything failed or remove the backup on
full success. -/
def TransactionalReEncrypt (env : TxEnv) (newRecipients : List String)
    (fs : TxFS) : TxOutcome :=
  let res0 : ReEncryptResult :=
    { TotalFiles := 0, SuccessfulFiles := 0, FailedFiles := [],
      IndexSuccess := false, IndexError := none }
  match BackupSOPSConfig env fs with
  | (fs1, some e) =>
    { result := res0, err := some ("failed to backup .sops.yaml: " ++ e),
      fs := fs1, attempted := [] }
  | (fs1, none) =>
    match CreateSOPSConfig env fs1 newRecipients with
    | (fs2, some e) =>
      match RestoreSOPSConfig env fs2 with
      | (fs3, some re) =>
        { result := res0,
          err := some ("failed to update .sops.yaml: " ++ e ++
            " (rollback also failed: " ++ re ++ ")"),
          fs := fs3, attempted := [] }
      | (fs3, none) =>
        { result := res0, err := some ("failed to update .sops.yaml: " ++ e),
          fs := fs3, attempted := [] }
    | (fs2, none) =>
      match env.listEntries with
      | Except.error e =>
        match RestoreSOPSConfig env fs2 with
        | (fs3, some re) =>
          { result := res0,
            err := some ("failed to list entries: " ++ e ++
              " (rollback also failed: " ++ re ++ ")"),
            fs := fs3, attempted := [] }
        | (fs3, none) =>
          { result := res0, err := some ("failed to list entries: " ++ e),
            fs := fs3, attempted := [] }
      | Except.ok files =>
        let res1 := files.foldl (reEncryptStep env)
          { res0 with TotalFiles := files.length }
        let res2 :=
          match env.reEncryptIndex with
          | some e => { res1 with IndexSuccess := false, IndexError := some e }
          | none => { res1 with IndexSuccess := true }
        if 0 < res2.FailedFiles.length ∨ res2.IndexSuccess = false then
          match RestoreSOPSConfig env fs2 with
          | (fs3, some re) =>
            { result := res2,
              err := some ("re-encryption failed AND rollback failed: " ++ re),
              fs := fs3, attempted := files }
          | (fs3, none) =>
            { result := res2,
              err := some "re-encryption failed, rolled back .sops.yaml",
              fs := fs3, attempted := files }
        else
          let fs3 := (RemoveBackup env fs2).1
          { result := res2, err := none, fs := fs3, attempted := files }

/-! Definitions used by the claims: the index-grouping invariant, operation
sequences, the spec-side path function, and concrete instances. -/

/-- One index mutation, for reasoning about arbitrary operation sequences. -/
inductive IdxOp
  | add (meta : Metadata)
  | remove (id : String)
deriving DecidableEq

/-- Applying one mutation to the index. -/
def applyOp (idx : Index) : IdxOp → Index
  | IdxOp.add m => idx.Add m
  | IdxOp.remove id => idx.Remove id

/-- An `Add` is safe when it does not overwrite an existing id with a changed
calendar day or tag set (the callers of `Index.Add` guarantee this by
removing before re-adding, as `Journal.Update` does). -/
def SafeAdd (idx : Index) (meta : Metadata) : Bool :=
  match mapGet idx.Entries meta.Id with
  | none => true
  | some m' =>
    m'.Date.formatYMD == meta.Date.formatYMD
      && m'.Tags.all (fun t => meta.Tags.contains t)
      && meta.Tags.all (fun t => m'.Tags.contains t)

/-- A sequence of mutations each of whose adds is safe in the state it
runs in. -/
def SafeSeq : Index → List IdxOp → Bool
  | _, [] => true
  | idx, op :: ops =>
    (match op with
     | IdxOp.add m => SafeAdd idx m
     | IdxOp.remove _ => true) && SafeSeq (applyOp idx op) ops

/-- Well-formed secondary buckets: every stored bucket is non-empty and has
no duplicate id. -/
def bucketsWF (m : List (String × List String)) : Prop :=
  ∀ k l, mapGet m k = some l → l ≠ [] ∧ l.Nodup

/-- The grouping invariant of the claim: `ByDate` is exactly the grouping of
the primary map by rendered day, `ByTag` exactly the grouping by tag
membership, with no empty bucket, no duplicate and hence no stale id. -/
def IndexGroupingInv (idx : Index) : Prop :=
  bucketsWF idx.ByDate ∧ bucketsWF idx.ByTag ∧
  (∀ k i, i ∈ bucketGet idx.ByDate k ↔
    ∃ m, mapGet idx.Entries i = some m ∧ m.Date.formatYMD = k) ∧
  (∀ k i, i ∈ bucketGet idx.ByTag k ↔
    ∃ m, mapGet idx.Entries i = some m ∧ k ∈ m.Tags)

/-- Path function as the spec words it: `{year}/{month}/{id}.yaml` from the
UTC calendar components of the timestamp (offset ignored). -/
def specEntryPathUTC (t : GoTime) (id : String) : String :=
  match civilFromDays (Int.ediv t.sec 86400) with
  | (y, m, _) => pad4 y ++ "/" ++ pad2 m ++ "/" ++ id ++ ".yaml"

/-- Path function of the amended claim: `{year}/{month}/{id}.yaml` from the
calendar components of the timestamp in its own location. -/
def specEntryPathLocal (t : GoTime) (id : String) : String :=
  match civilFromDays (Int.ediv (t.sec + t.offset) 86400) with
  | (y, m, _) => pad4 y ++ "/" ++ pad2 m ++ "/" ++ id ++ ".yaml"

/-- Full stored id of the concrete one-entry store used against the
prefix-resolution claim. -/
def c1FullId : String := "0a1b2c3d-0000-4000-8000-000000000000"

/-- Metadata of that stored entry. -/
def c1Meta : Metadata :=
  { Id := c1FullId, Date := { sec := 1732026600, offset := 0 }, Tags := [],
    FilePath := "2024/11/" ++ c1FullId ++ ".yaml" }

/-- One-entry index holding `c1FullId`. -/
def c1Index : Index := NewIndex.Add c1Meta

/-- Entry the storage oracle returns for that store. -/
def c1Entry : EntryV1 :=
  NewEntryV1 c1FullId { sec := 1732026600, offset := 0 } "content" []
    ("2024/11/" ++ c1FullId ++ ".yaml")

/-- Storage oracle of that store: loads always succeed. -/
def c1Env : StorageEnv :=
  { saveEntry := fun _ => none, saveIndex := fun _ => none,
    loadEntry := fun _ _ => Except.ok c1Entry, deleteEntry := fun _ => none }

/-- Storage oracle whose encrypted entry write always fails. -/
def wFailingStorage : StorageEnv :=
  { saveEntry := fun _ => some "disk full", saveIndex := fun _ => none,
    loadEntry := fun _ _ => Except.error "unreachable",
    deleteEntry := fun _ => none }

/-- Concrete metadata with the same id on two different days. -/
def cexDupMeta1 : Metadata :=
  { Id := "aa", Date := { sec := 0, offset := 0 }, Tags := [], FilePath := "" }

/-- The re-add of the same id one day later. -/
def cexDupMeta2 : Metadata :=
  { Id := "aa", Date := { sec := 86400, offset := 0 }, Tags := [], FilePath := "" }

/-- An add/add sequence re-adding the id with a changed day. -/
def cexDupOps : List IdxOp := [IdxOp.add cexDupMeta1, IdxOp.add cexDupMeta2]

/-- First metadata of the concrete safe sequence. -/
def wSeqMeta1 : Metadata :=
  { Id := "e1", Date := { sec := 0, offset := 0 },
    Tags := ["work", "meeting"], FilePath := "p1" }

/-- Second metadata of the concrete safe sequence. -/
def wSeqMeta2 : Metadata :=
  { Id := "e2", Date := { sec := 86400, offset := 0 },
    Tags := ["personal"], FilePath := "p2" }

/-- Concrete safe sequence: two adds of distinct ids, then a remove. -/
def wSeqOps : List IdxOp :=
  [IdxOp.add wSeqMeta1, IdxOp.add wSeqMeta2, IdxOp.remove "e1"]

/-- Transaction oracle with three files of which one fails, everything else
succeeding. -/
def wTxEnv : TxEnv :=
  { listEntries := Except.ok ["a.yaml", "b.yaml", "c.yaml"],
    reEncryptEntry := fun p => if p = "b.yaml" then some "bad key" else none,
    reEncryptIndex := none, backupWriteOk := true, configWriteOk := true,
    restoreWriteOk := true, restoreRemoveOk := true, finalRemoveOk := true }

/-- Transaction oracle of a fully successful run whose final backup removal
fails. -/
def cexTxEnv : TxEnv :=
  { listEntries := Except.ok ["a.yaml"], reEncryptEntry := fun _ => none,
    reEncryptIndex := none, backupWriteOk := true, configWriteOk := true,
    restoreWriteOk := true, restoreRemoveOk := true, finalRemoveOk := false }

/-- Initial configuration state: one old recipient, no backup file. -/
def txFS0 : TxFS := { config := ["age1old"], backup := none }

/-- Index state with one entry filed under 1970-01-02, used against the
date-range claim. -/
def cexRangeIdx : Index :=
  { Version := "1.0",
    Entries := [("e1",
      { Id := "e1", Date := { sec := 86400, offset := 0 }, Tags := [],
        FilePath := "p" })],
    ByDate := [("1970-01-02", ["e1"])], ByTag := [] }

/-! Basic lemmas about the map and list helpers. -/

theorem mapGet_mapSet {α : Type} (m : List (String × α)) (k k' : String)
    (v : α) :
    mapGet (mapSet m k v) k' = if k = k' then some v else mapGet m k' := by
  induction m with
  | nil => simp [mapSet, mapGet]
  | cons p rest ih =>
    obtain ⟨a, b⟩ := p
    by_cases hak : a = k
    · subst hak
      by_cases hkk : a = k' <;> simp [mapSet, mapGet, hkk]
    · by_cases hak' : a = k'
      · subst hak'
        have : ¬ k = a := fun h => hak h.symm
        simp [mapSet, mapGet, hak, this]
      · simp [mapSet, mapGet, hak, hak', ih]

theorem mapGet_mapDel {α : Type} (m : List (String × α)) (k k' : String) :
    mapGet (mapDel m k) k' = if k = k' then none else mapGet m k' := by
  induction m with
  | nil => simp [mapDel, mapGet]
  | cons p rest ih =>
    obtain ⟨a, b⟩ := p
    by_cases hak : a = k
    · subst hak
      have h1 : mapDel ((a, b) :: rest) a = mapDel rest a := by
        simp [mapDel, List.filter_cons]
      rw [h1, ih]
      by_cases hkk : a = k'
      · simp [hkk]
      · simp [mapGet, hkk]
    · have h1 : mapDel ((a, b) :: rest) k = (a, b) :: mapDel rest k := by
        simp [mapDel, List.filter_cons, hak]
      rw [h1]
      by_cases hak' : a = k'
      · subst hak'
        have hkk : ¬ k = a := fun h => hak h.symm
        simp [mapGet, hkk]
      · by_cases hkk : k = k'
        · subst hkk
          simp [mapGet, hak', ih]
        · simp [mapGet, hak', hkk, ih]

theorem mem_appendUnique (l : List String) (a x : String) :
    x ∈ appendUnique l a ↔ x ∈ l ∨ x = a := by
  unfold appendUnique
  by_cases h : a ∈ l
  · simp only [if_pos h]
    constructor
    · exact fun hx => Or.inl hx
    · rintro (hx | rfl)
      · exact hx
      · exact h
  · simp [if_neg h]

theorem appendUnique_ne_nil (l : List String) (a : String) :
    appendUnique l a ≠ [] := by
  unfold appendUnique
  by_cases h : a ∈ l
  · rw [if_pos h]
    intro hnil
    rw [hnil] at h
    exact List.not_mem_nil a h
  · simp [if_neg h]

theorem appendUnique_nodup (l : List String) (a : String) (h : l.Nodup) :
    (appendUnique l a).Nodup := by
  unfold appendUnique
  by_cases ha : a ∈ l
  · simpa [if_pos ha]
  · simp [if_neg ha, List.nodup_append, h, ha]

theorem mem_removeString (l : List String) (a x : String) :
    x ∈ removeString l a ↔ x ∈ l ∧ x ≠ a := by
  simp [removeString, List.mem_filter]

theorem removeString_nodup (l : List String) (a : String) (h : l.Nodup) :
    (removeString l a).Nodup :=
  List.Nodup.filter _ h

theorem mem_addUniqueAll (acc ids : List String) (x : String) :
    x ∈ addUniqueAll acc ids ↔ x ∈ acc ∨ x ∈ ids := by
  induction ids generalizing acc with
  | nil => simp [addUniqueAll]
  | cons i rest ih =>
    show x ∈ addUniqueAll (if i ∈ acc then acc else acc ++ [i]) rest ↔ _
    rw [ih]
    by_cases hi : i ∈ acc
    · simp only [if_pos hi, List.mem_cons]
      constructor
      · rintro (hx | hx)
        · exact Or.inl hx
        · exact Or.inr (Or.inr hx)
      · rintro (hx | rfl | hx)
        · exact Or.inl hx
        · exact Or.inl hi
        · exact Or.inr hx
    · simp only [if_neg hi, List.mem_append, List.mem_singleton, List.mem_cons]
      tauto

/-! Claim theorems. -/

/-- C3: for every valid version-1 record (non-empty id, non-zero date),
parsing the document its encoding produces succeeds and reproduces the record
in every field. -/
theorem parseYaml_toYaml_roundtrip (e : EntryV1) (hv : e.Version = 1)
    (hid : e.Id ≠ "") (hz : e.Date.IsZero = false) :
    ParseYaml e.ToYaml = Except.ok e := by
  have hts : e.ToYaml = e := by
    cases e
    simp only [EntryV1.ToYaml] at *
    simp_all
  rw [hts]
  simp [ParseYaml, hv, hid, hz]

/-- Concrete valid record exercising the round-trip theorem. -/
def wEntry : EntryV1 :=
  { Version := 1, Id := "41f2c3d4", Date := { sec := 1732026600, offset := 0 },
    Tags := ["work", "meeting"], FilePath := "2024/11/41f2c3d4.yaml",
    Content := "This is a test entry" }

/-- Witness for C3 at a concrete record. -/
theorem parseYaml_toYaml_roundtrip_witness :
    wEntry.Version = 1 ∧ wEntry.Id ≠ "" ∧ wEntry.Date.IsZero = false ∧
    ParseYaml wEntry.ToYaml = Except.ok wEntry :=
  ⟨rfl, by decide, by decide,
    parseYaml_toYaml_roundtrip wEntry rfl (by decide) (by decide)⟩

/-- C4: the parser rejects any unrecognized version discriminator with the
unsupported-version error, rejects a recognized version-1 document whose id
is empty or whose date is the zero value with the corresponding
invalid-record error, and returns a record exactly when the version is
recognized and both required fields are present. -/
theorem parseYaml_error_classification (doc : EntryV1) :
    (ParseYaml doc = Except.error (ParseErr.unsupportedVersion doc.Version) ↔
      doc.Version ≠ 1)
    ∧ (ParseYaml doc = Except.error ParseErr.idRequired ↔
      doc.Version = 1 ∧ doc.Id = "")
    ∧ (ParseYaml doc = Except.error ParseErr.dateRequired ↔
      doc.Version = 1 ∧ doc.Id ≠ "" ∧ doc.Date.IsZero = true)
    ∧ (ParseYaml doc = Except.ok doc ↔
      doc.Version = 1 ∧ doc.Id ≠ "" ∧ doc.Date.IsZero = false) := by
  by_cases hv : doc.Version = 1 <;> by_cases hid : doc.Id = "" <;>
    by_cases hz : doc.Date.IsZero <;>
    simp [ParseYaml, hv, hid, hz]

/-- C10: when the index artifact is absent on disk, `LoadIndex` succeeds with
a fresh empty index (empty primary map and empty date and tag buckets)
instead of failing. -/
theorem loadIndex_missing_file (fs : IdxFS) (h : fs.indexFile = none) :
    Storage.LoadIndex fs = Except.ok NewIndex ∧ NewIndex.Entries = [] ∧
    NewIndex.ByDate = [] ∧ NewIndex.ByTag = [] := by
  refine ⟨?_, rfl, rfl, rfl⟩
  simp [Storage.LoadIndex, h]

/-- Witness for C10 at the store with no index artifact. -/
theorem loadIndex_missing_file_witness :
    IdxFS.indexFile { indexFile := none } = none ∧
    (Storage.LoadIndex { indexFile := none } = Except.ok NewIndex ∧
      NewIndex.Entries = [] ∧ NewIndex.ByDate = [] ∧ NewIndex.ByTag = []) :=
  ⟨rfl, loadIndex_missing_file { indexFile := none } rfl⟩

/-- C5: when the encrypted write of the new entry fails, `Journal.Add`
returns an error, the in-memory index is exactly the one it started with
(hence has no entry for the fresh id), and the index persist call is never
reached. -/
theorem journalAdd_saveEntry_failure (env : StorageEnv) (idx : Index)
    (content : String) (tags : List String) (now : GoTime) (newId e : String)
    (h : env.saveEntry (mkAddEntry content tags now newId) = some e) :
    (Journal.Add env idx content tags now newId).result =
      Except.error ("failed to save entry: " ++ e)
    ∧ (Journal.Add env idx content tags now newId).index = idx
    ∧ (Journal.Add env idx content tags now newId).indexPersistAttempted = false
    ∧ (idx.GetMetadata newId = none →
        (Journal.Add env idx content tags now newId).index.GetMetadata newId
          = none) := by
  refine ⟨?_, ?_, ?_, ?_⟩ <;> simp [Journal.Add, h]

/-- Witness for C5: a storage oracle whose entry write always fails leaves
the empty index untouched. -/
theorem journalAdd_saveEntry_failure_witness :
    wFailingStorage.saveEntry
      (mkAddEntry "hello" ["work"] { sec := 1732026600, offset := 0 } "id-1")
      = some "disk full"
    ∧ ((Journal.Add wFailingStorage NewIndex "hello" ["work"]
        { sec := 1732026600, offset := 0 } "id-1").result =
        Except.error ("failed to save entry: " ++ "disk full")
      ∧ (Journal.Add wFailingStorage NewIndex "hello" ["work"]
          { sec := 1732026600, offset := 0 } "id-1").index = NewIndex
      ∧ (Journal.Add wFailingStorage NewIndex "hello" ["work"]
          { sec := 1732026600, offset := 0 } "id-1").indexPersistAttempted
          = false
      ∧ (NewIndex.GetMetadata "id-1" = none →
          (Journal.Add wFailingStorage NewIndex "hello" ["work"]
            { sec := 1732026600, offset := 0 } "id-1").index.GetMetadata "id-1"
            = none)) :=
  ⟨rfl, journalAdd_saveEntry_failure wFailingStorage NewIndex "hello" ["work"]
    { sec := 1732026600, offset := 0 } "id-1" "disk full" rfl⟩

/-- C1 (divergence witness): in a store holding exactly the id
`0a1b2c3d-0000-4000-8000-000000000000`, `Journal.Get` succeeds on the full
id but fails with the not-found error on its unique 8-character prefix and on
a 7-character input (no too-short error exists), and `Journal.Delete` on the
8-character prefix likewise fails and leaves the index unchanged: the code
performs only an exact map lookup and never resolves prefixes. -/
theorem journalGet_ignores_unique_prefix :
    Journal.Get c1Env c1Index c1FullId = Except.ok c1Entry
    ∧ Journal.Get c1Env c1Index "0a1b2c3d" =
      Except.error "entry not found: 0a1b2c3d"
    ∧ Journal.Get c1Env c1Index "0a1b2c3" =
      Except.error "entry not found: 0a1b2c3"
    ∧ (Journal.Delete c1Env c1Index "0a1b2c3d").result =
      some "entry not found: 0a1b2c3d"
    ∧ (Journal.Delete c1Env c1Index "0a1b2c3d").index = c1Index := by
  refine ⟨?_, rfl, rfl, rfl, rfl⟩
  rfl

/-- C9 (amended): the entry value `Journal.Add` builds and stores carries the
relative location `{year}/{month}/{id}.yaml` computed from the timestamp's
calendar components in its own location — which coincide with the UTC
components exactly when the timestamp's offset is zero — and the successful
result of `Journal.Add` returns that same stored location. -/
theorem addEntry_path_local_calendar (content : String) (tags : List String)
    (t : GoTime) (id : String) :
    (mkAddEntry content tags t id).FilePath = specEntryPathLocal t id
    ∧ (t.offset = 0 →
        (mkAddEntry content tags t id).FilePath = specEntryPathUTC t id)
    ∧ (∀ (env : StorageEnv) (idx : Index) (e : EntryV1),
        (Journal.Add env idx content tags t id).result = Except.ok e →
        e.FilePath = specEntryPathLocal t id) := by
  have hpath : Storage.GetEntryPath t id = specEntryPathLocal t id := by
    rcases h : civilFromDays (Int.ediv (t.sec + t.offset) 86400) with ⟨y, m, d⟩
    simp [Storage.GetEntryPath, GoTime.formatYear, GoTime.formatMonth,
      GoTime.dayIndex, specEntryPathLocal, h, String.append_assoc]
  have hmk : (mkAddEntry content tags t id).FilePath =
      Storage.GetEntryPath t id := rfl
  refine ⟨hmk.trans hpath, ?_, ?_⟩
  · intro hoff
    rw [hmk, hpath]
    simp [specEntryPathLocal, specEntryPathUTC, hoff]
  · intro env idx e hres
    have he : e = mkAddEntry content tags t id := by
      unfold Journal.Add at hres
      cases h1 : env.saveEntry (mkAddEntry content tags t id) with
      | some err => simp [h1] at hres
      | none =>
        cases h2 : env.saveIndex (idx.Add (mkAddEntry content tags t id).toMetadata) with
        | some err2 => simp [h1, h2] at hres
        | none =>
          simp [h1, h2] at hres
          exact hres.symm
    rw [he, hmk, hpath]

/-- C9 (counterexample to the UTC wording): a timestamp half an hour before
the 1970 new year in UTC, carried in a UTC+1 location, is filed under
`1970/01`, not under the UTC-derived `1969/12`. -/
theorem getEntryPath_not_utc :
    Storage.GetEntryPath { sec := -1800, offset := 3600 } "x" = "1970/01/x.yaml"
    ∧ specEntryPathUTC { sec := -1800, offset := 3600 } "x" = "1969/12/x.yaml"
    ∧ Storage.GetEntryPath { sec := -1800, offset := 3600 } "x" ≠
      specEntryPathUTC { sec := -1800, offset := 3600 } "x" := by
  refine ⟨rfl, rfl, ?_⟩
  decide

/-! Lemmas about the step-4 re-encryption fold. -/

theorem foldl_reEncryptStep (env : TxEnv) (files : List String)
    (r : ReEncryptResult) :
    (files.foldl (reEncryptStep env) r).TotalFiles = r.TotalFiles
    ∧ (files.foldl (reEncryptStep env) r).FailedFiles = r.FailedFiles ++
        files.filterMap (fun f => (env.reEncryptEntry f).map
          (fun e => { FilePath := f, Error := e }))
    ∧ (files.foldl (reEncryptStep env) r).SuccessfulFiles =
        r.SuccessfulFiles +
          (files.filter (fun f => (env.reEncryptEntry f).isNone)).length
    ∧ (files.foldl (reEncryptStep env) r).IndexSuccess = r.IndexSuccess
    ∧ (files.foldl (reEncryptStep env) r).IndexError = r.IndexError := by
  induction files generalizing r with
  | nil => simp
  | cons f rest ih =>
    cases hf : env.reEncryptEntry f with
    | some e =>
      have := ih (reEncryptStep env r f)
      simpa [reEncryptStep, hf, List.filterMap_cons, List.filter_cons] using this
    | none =>
      have := ih (reEncryptStep env r f)
      simp only [reEncryptStep, hf] at this
      simp [List.foldl_cons, reEncryptStep, hf, List.filterMap_cons,
        List.filter_cons, this]
      omega

theorem filterMap_failures_length (env : TxEnv) (files : List String) :
    (files.filterMap (fun f => (env.reEncryptEntry f).map
      (fun e => ({ FilePath := f, Error := e } : FileError)))).length =
    (files.filter (fun f => (env.reEncryptEntry f).isSome)).length := by
  induction files with
  | nil => rfl
  | cons f rest ih =>
    cases hf : env.reEncryptEntry f with
    | some e => simp [List.filterMap_cons, List.filter_cons, hf, ih]
    | none => simp [List.filterMap_cons, List.filter_cons, hf, ih]

theorem filter_isNone_isSome_length (env : TxEnv) (files : List String) :
    (files.filter (fun f => (env.reEncryptEntry f).isNone)).length +
    (files.filter (fun f => (env.reEncryptEntry f).isSome)).length =
    files.length := by
  induction files with
  | nil => rfl
  | cons f rest ih =>
    cases hf : env.reEncryptEntry f with
    | some e =>
      simp [List.filter_cons, hf]
      omega
    | none =>
      simp [List.filter_cons, hf]
      omega

/-- C7: a rotation run that reaches the re-encryption phase (backup, config
commit and enumeration succeed) hands every enumerated file to the
re-encryption callback exactly once, in order, without aborting early, and
its result reports the list length as TotalFiles, exactly the failing paths
paired with their errors as FailedFiles, and TotalFiles minus the number of
failures as SuccessfulFiles. -/
theorem transactionalReEncrypt_complete_report (env : TxEnv)
    (newRecipients : List String) (fs : TxFS) (files : List String)
    (hb : env.backupWriteOk = true) (hc : env.configWriteOk = true)
    (hnr : newRecipients ≠ []) (hl : env.listEntries = Except.ok files) :
    (TransactionalReEncrypt env newRecipients fs).attempted = files
    ∧ (TransactionalReEncrypt env newRecipients fs).result.TotalFiles =
      files.length
    ∧ (TransactionalReEncrypt env newRecipients fs).result.FailedFiles =
      files.filterMap (fun f => (env.reEncryptEntry f).map
        (fun e => { FilePath := f, Error := e }))
    ∧ (TransactionalReEncrypt env newRecipients fs).result.SuccessfulFiles =
      files.length -
        (TransactionalReEncrypt env newRecipients fs).result.FailedFiles.length
    := by
  have hfold := foldl_reEncryptStep env files
    { TotalFiles := files.length, SuccessfulFiles := 0, FailedFiles := [],
      IndexSuccess := false, IndexError := none }
  unfold TransactionalReEncrypt
  simp only [BackupSOPSConfig, CreateSOPSConfig, hb, hc, hl, if_true,
    if_neg hnr]
  obtain ⟨hTot, hFail, hSucc, _, _⟩ := hfold
  have hlenfail := filterMap_failures_length env files
  have hlensum := filter_isNone_isSome_length env files
  cases hidx : env.reEncryptIndex with
  | some e =>
    simp only []
    split
    · rcases h3 : RestoreSOPSConfig env
        { config := newRecipients, backup := some fs.config } with ⟨fs3, re⟩
      cases re <;> simp_all <;> try omega
    · simp_all
      try omega
  | none =>
    simp only []
    split
    · rcases h3 : RestoreSOPSConfig env
        { config := newRecipients, backup := some fs.config } with ⟨fs3, re⟩
      cases re <;> simp_all <;> try omega
    · simp_all
      try omega

/-- Witness for C7: three enumerated files of which the second fails. -/
theorem transactionalReEncrypt_complete_report_witness :
    wTxEnv.backupWriteOk = true ∧ wTxEnv.configWriteOk = true ∧
    (["age1new"] : List String) ≠ [] ∧
    wTxEnv.listEntries = Except.ok ["a.yaml", "b.yaml", "c.yaml"] ∧
    ((TransactionalReEncrypt wTxEnv ["age1new"] txFS0).attempted =
      ["a.yaml", "b.yaml", "c.yaml"]
    ∧ (TransactionalReEncrypt wTxEnv ["age1new"] txFS0).result.TotalFiles =
      (["a.yaml", "b.yaml", "c.yaml"] : List String).length
    ∧ (TransactionalReEncrypt wTxEnv ["age1new"] txFS0).result.FailedFiles =
      (["a.yaml", "b.yaml", "c.yaml"] : List String).filterMap
        (fun f => (wTxEnv.reEncryptEntry f).map
          (fun e => { FilePath := f, Error := e }))
    ∧ (TransactionalReEncrypt wTxEnv ["age1new"] txFS0).result.SuccessfulFiles =
      (["a.yaml", "b.yaml", "c.yaml"] : List String).length -
        (TransactionalReEncrypt wTxEnv
          ["age1new"] txFS0).result.FailedFiles.length) :=
  ⟨rfl, rfl, by decide, rfl,
    transactionalReEncrypt_complete_report wTxEnv ["age1new"] txFS0
      ["a.yaml", "b.yaml", "c.yaml"] rfl rfl (by decide) rfl⟩

/-- C6 (amended): a rotation run reaching the re-encryption phase in which
some record or the index re-encryption fails reports failure together with
the complete counts and per-record detail, and attempts to restore the
recipient configuration from the step-1 backup: when the restore write and
the backup removal both succeed the configuration is back to its old content
and the backup file is gone; when the restore write fails the new
configuration stays and the backup is retained; when only the backup removal
fails the configuration is restored but the backup is retained; in the two
failing cases the reported error names the rollback failure distinctly. -/
theorem transactionalReEncrypt_rollback (env : TxEnv)
    (newRecipients : List String) (fs : TxFS) (files : List String)
    (hb : env.backupWriteOk = true) (hc : env.configWriteOk = true)
    (hnr : newRecipients ≠ []) (hl : env.listEntries = Except.ok files)
    (hfail : (∃ f ∈ files, (env.reEncryptEntry f).isSome = true) ∨
      env.reEncryptIndex.isSome = true) :
    (TransactionalReEncrypt env newRecipients fs).err ≠ none
    ∧ (TransactionalReEncrypt env newRecipients fs).result.TotalFiles =
      files.length
    ∧ (TransactionalReEncrypt env newRecipients fs).result.FailedFiles =
      files.filterMap (fun f => (env.reEncryptEntry f).map
        (fun e => { FilePath := f, Error := e }))
    ∧ (TransactionalReEncrypt env newRecipients fs).result.SuccessfulFiles +
      (TransactionalReEncrypt env newRecipients fs).result.FailedFiles.length =
      files.length
    ∧ (TransactionalReEncrypt env newRecipients fs).result.IndexError =
      env.reEncryptIndex
    ∧ (env.restoreWriteOk = true → env.restoreRemoveOk = true →
        (TransactionalReEncrypt env newRecipients fs).fs.config = fs.config
        ∧ (TransactionalReEncrypt env newRecipients fs).fs.backup = none
        ∧ (TransactionalReEncrypt env newRecipients fs).err =
          some "re-encryption failed, rolled back .sops.yaml")
    ∧ (env.restoreWriteOk = false →
        (TransactionalReEncrypt env newRecipients fs).fs.config = newRecipients
        ∧ (TransactionalReEncrypt env newRecipients fs).fs.backup =
          some fs.config
        ∧ (TransactionalReEncrypt env newRecipients fs).err =
          some ("re-encryption failed AND rollback failed: " ++
            "failed to restore .sops.yaml"))
    ∧ (env.restoreWriteOk = true → env.restoreRemoveOk = false →
        (TransactionalReEncrypt env newRecipients fs).fs.config = fs.config
        ∧ (TransactionalReEncrypt env newRecipients fs).fs.backup =
          some fs.config
        ∧ (TransactionalReEncrypt env newRecipients fs).err =
          some ("re-encryption failed AND rollback failed: " ++
            "failed to remove backup")) := by
  have hfold := foldl_reEncryptStep env files
    { TotalFiles := files.length, SuccessfulFiles := 0, FailedFiles := [],
      IndexSuccess := false, IndexError := none }
  obtain ⟨hTot, hFail, hSucc, hIS, hIE⟩ := hfold
  have hlenfail := filterMap_failures_length env files
  have hlensum := filter_isNone_isSome_length env files
  have hpos : (∃ f ∈ files, (env.reEncryptEntry f).isSome = true) →
      0 < (List.foldl (reEncryptStep env)
        { TotalFiles := files.length, SuccessfulFiles := 0, FailedFiles := [],
          IndexSuccess := false, IndexError := none } files).FailedFiles.length := by
    rintro ⟨f, hfm, hfs⟩
    rw [hFail]
    simp only [List.nil_append, hlenfail]
    have : f ∈ files.filter (fun f => (env.reEncryptEntry f).isSome) :=
      List.mem_filter.mpr ⟨hfm, hfs⟩
    exact List.length_pos.mpr (fun hnil => by simp [hnil] at this)
  unfold TransactionalReEncrypt
  simp only [BackupSOPSConfig, CreateSOPSConfig, hb, hc, hl, if_true,
    if_neg hnr]
  cases hidx : env.reEncryptIndex with
  | some e =>
    cases hw : env.restoreWriteOk with
    | true =>
      cases hr : env.restoreRemoveOk with
      | true => simp_all [RestoreSOPSConfig]
      | false => simp_all [RestoreSOPSConfig]
    | false => simp_all [RestoreSOPSConfig]
  | none =>
    have hpos2 := hpos (by simpa [hidx] using hfail)
    cases hw : env.restoreWriteOk with
    | true =>
      cases hr : env.restoreRemoveOk with
      | true => simp_all [RestoreSOPSConfig]
      | false => simp_all [RestoreSOPSConfig]
    | false => simp_all [RestoreSOPSConfig]

/-- Witness for C6: one failing record with a working restore path leaves the
old configuration in place and no backup file behind. -/
theorem transactionalReEncrypt_rollback_witness :
    wTxEnv.backupWriteOk = true ∧ wTxEnv.configWriteOk = true ∧
    (["age1new"] : List String) ≠ [] ∧
    wTxEnv.listEntries = Except.ok ["a.yaml", "b.yaml", "c.yaml"] ∧
    (wTxEnv.reEncryptEntry "b.yaml").isSome = true ∧
    (TransactionalReEncrypt wTxEnv ["age1new"] txFS0).err ≠ none ∧
    (TransactionalReEncrypt wTxEnv ["age1new"] txFS0).fs.config = ["age1old"] ∧
    (TransactionalReEncrypt wTxEnv ["age1new"] txFS0).fs.backup = none := by
  have h := transactionalReEncrypt_rollback wTxEnv ["age1new"] txFS0
    ["a.yaml", "b.yaml", "c.yaml"] rfl rfl (by decide) rfl
    (Or.inl ⟨"b.yaml", by decide, rfl⟩)
  obtain ⟨h1, -, -, -, -, h6, -, -⟩ := h
  obtain ⟨ha, hbk, -⟩ := h6 rfl rfl
  exact ⟨rfl, rfl, by decide, rfl, rfl, h1, ha, hbk⟩

/-- C6 (counterexample to the claim as stated): on a fully successful run
whose final backup removal fails, the transaction still reports success while
the backup file is retained, although the restoration never ran, let alone
failed. -/
theorem transactionalReEncrypt_success_keeps_backup :
    (TransactionalReEncrypt cexTxEnv ["age1new"] txFS0).err = none
    ∧ (TransactionalReEncrypt cexTxEnv ["age1new"] txFS0).result.FailedFiles = []
    ∧ (TransactionalReEncrypt cexTxEnv ["age1new"] txFS0).result.IndexSuccess
      = true
    ∧ (TransactionalReEncrypt cexTxEnv ["age1new"] txFS0).fs.backup =
      some ["age1old"] := by
  refine ⟨rfl, rfl, rfl, rfl⟩

/-! Lemmas for the index-grouping invariant. -/

theorem bucketGet_mapSet (m : List (String × List String)) (k k' : String)
    (v : List String) :
    bucketGet (mapSet m k v) k' = if k = k' then v else bucketGet m k' := by
  unfold bucketGet
  rw [mapGet_mapSet]
  by_cases h : k = k' <;> simp [h]

theorem appendUnique_idem (l : List String) (a : String) :
    appendUnique (appendUnique l a) a = appendUnique l a := by
  have : a ∈ appendUnique l a := (mem_appendUnique l a a).mpr (Or.inr rfl)
  unfold appendUnique
  rw [if_pos]
  exact this

theorem removeString_nil (a : String) : removeString [] a = [] := rfl

theorem removeString_idem (l : List String) (a : String) :
    removeString (removeString l a) a = removeString l a := by
  unfold removeString
  rw [List.filter_filter]
  simp

theorem addTags_mapGet (tags : List String)
    (bt : List (String × List String)) (id k : String) :
    mapGet (tags.foldl
      (fun bt tag => mapSet bt tag (appendUnique (bucketGet bt tag) id)) bt) k
    = if k ∈ tags then some (appendUnique (bucketGet bt k) id)
      else mapGet bt k := by
  induction tags generalizing bt with
  | nil => simp
  | cons t ts ih =>
    rw [List.foldl_cons, ih]
    by_cases hts : k ∈ ts
    · rw [if_pos hts, if_pos (List.mem_cons.mpr (Or.inr hts))]
      rw [bucketGet_mapSet]
      by_cases htk : t = k
      · rw [if_pos htk, appendUnique_idem, htk]
      · rw [if_neg htk]
    · rw [if_neg hts, mapGet_mapSet]
      by_cases htk : t = k
      · rw [if_pos htk, if_pos (List.mem_cons.mpr (Or.inl htk.symm)), htk]
      · rw [if_neg htk,
          if_neg (fun h => (List.mem_cons.mp h).elim (fun h2 => htk h2.symm) hts)]


theorem addTags_bucketGet (tags : List String)
    (bt : List (String × List String)) (id k : String) :
    bucketGet (tags.foldl
      (fun bt tag => mapSet bt tag (appendUnique (bucketGet bt tag) id)) bt) k
    = if k ∈ tags then appendUnique (bucketGet bt k) id
      else bucketGet bt k := by
  have h := addTags_mapGet tags bt id k
  show (mapGet (tags.foldl
    (fun bt tag => mapSet bt tag (appendUnique (bucketGet bt tag) id)) bt)
      k).getD [] = _
  rw [h]
  by_cases hk : k ∈ tags
  · rw [if_pos hk, if_pos hk]
    rfl
  · rw [if_neg hk, if_neg hk]
    rfl

theorem removeTags_mapGet (tags : List String)
    (bt : List (String × List String)) (id k : String) :
    mapGet (tags.foldl
      (fun bt tag =>
        let b := removeString (bucketGet bt tag) id
        let bt0 := mapSet bt tag b
        if b.length = 0 then mapDel bt0 tag else bt0) bt) k
    = if k ∈ tags then
        (if (removeString (bucketGet bt k) id).length = 0 then none
         else some (removeString (bucketGet bt k) id))
      else mapGet bt k := by
  induction tags generalizing bt with
  | nil => simp
  | cons t ts ih =>
    rw [List.foldl_cons]
    simp only []
    by_cases hb : (removeString (bucketGet bt t) id).length = 0
    · rw [if_pos hb, ih]
      have hA : ∀ k', mapGet (mapDel (mapSet bt t
          (removeString (bucketGet bt t) id)) t) k' =
          if t = k' then none else mapGet bt k' := by
        intro k'
        rw [mapGet_mapDel, mapGet_mapSet]
        by_cases htk : t = k' <;> simp [htk]
      have hB : ∀ k', bucketGet (mapDel (mapSet bt t
          (removeString (bucketGet bt t) id)) t) k' =
          if t = k' then [] else bucketGet bt k' := by
        intro k'
        show (mapGet _ _).getD [] = _
        rw [hA k']
        by_cases htk : t = k' <;> simp [htk]
        rfl
      by_cases hts : k ∈ ts
      · rw [if_pos hts, if_pos (List.mem_cons.mpr (Or.inr hts)), hB]
        by_cases htk : t = k
        · subst htk
          simp [removeString_nil, hb]
        · rw [if_neg htk]
      · rw [if_neg hts, hA]
        by_cases htk : t = k
        · subst htk
          rw [if_pos rfl, if_pos (List.mem_cons.mpr (Or.inl rfl)), if_pos hb]
        · rw [if_neg htk,
            if_neg (fun h => (List.mem_cons.mp h).elim (fun h2 => htk h2.symm) hts)]
    · rw [if_neg hb, ih]
      have hA : ∀ k', mapGet (mapSet bt t
          (removeString (bucketGet bt t) id)) k' =
          if t = k' then some (removeString (bucketGet bt t) id)
          else mapGet bt k' := fun k' => mapGet_mapSet bt t k' _
      have hB : ∀ k', bucketGet (mapSet bt t
          (removeString (bucketGet bt t) id)) k' =
          if t = k' then removeString (bucketGet bt t) id
          else bucketGet bt k' := fun k' => bucketGet_mapSet bt t k' _
      by_cases hts : k ∈ ts
      · rw [if_pos hts, if_pos (List.mem_cons.mpr (Or.inr hts)), hB]
        by_cases htk : t = k
        · subst htk
          rw [if_pos rfl, removeString_idem, if_neg hb]
        · rw [if_neg htk]
      · rw [if_neg hts, hA]
        by_cases htk : t = k
        · subst htk
          rw [if_pos rfl, if_pos (List.mem_cons.mpr (Or.inl rfl)), if_neg hb]
        · rw [if_neg htk,
            if_neg (fun h => (List.mem_cons.mp h).elim (fun h2 => htk h2.symm) hts)]

theorem removeTags_bucketGet (tags : List String)
    (bt : List (String × List String)) (id k : String) :
    bucketGet (tags.foldl
      (fun bt tag =>
        let b := removeString (bucketGet bt tag) id
        let bt0 := mapSet bt tag b
        if b.length = 0 then mapDel bt0 tag else bt0) bt) k
    = if k ∈ tags then removeString (bucketGet bt k) id
      else bucketGet bt k := by
  have h := removeTags_mapGet tags bt id k
  show (mapGet (tags.foldl
    (fun bt tag =>
      let b := removeString (bucketGet bt tag) id
      let bt0 := mapSet bt tag b
      if b.length = 0 then mapDel bt0 tag else bt0) bt) k).getD [] = _
  rw [h]
  by_cases hk : k ∈ tags
  · rw [if_pos hk, if_pos hk]
    by_cases hb : (removeString (bucketGet bt k) id).length = 0
    · rw [if_pos hb]
      exact (List.length_eq_zero.mp hb).symm
    · rw [if_neg hb]
      rfl
  · rw [if_neg hk, if_neg hk]
    rfl

theorem Add_Entries_eq (idx : Index) (meta : Metadata) :
    (Index.Add idx meta).Entries = mapSet idx.Entries meta.Id meta := rfl

theorem Add_ByDate_eq (idx : Index) (meta : Metadata) :
    (Index.Add idx meta).ByDate = mapSet idx.ByDate meta.Date.formatYMD
      (appendUnique (bucketGet idx.ByDate meta.Date.formatYMD) meta.Id) := rfl

theorem Add_ByTag_eq (idx : Index) (meta : Metadata) :
    (Index.Add idx meta).ByTag = meta.Tags.foldl
      (fun bt tag => mapSet bt tag (appendUnique (bucketGet bt tag) meta.Id))
      idx.ByTag := rfl

theorem safeAdd_spec (idx : Index) (meta m' : Metadata)
    (hm : mapGet idx.Entries meta.Id = some m')
    (hs : SafeAdd idx meta = true) :
    m'.Date.formatYMD = meta.Date.formatYMD ∧
    (∀ t, t ∈ m'.Tags ↔ t ∈ meta.Tags) := by
  unfold SafeAdd at hs
  rw [hm] at hs
  simp only [Bool.and_eq_true, beq_iff_eq, List.all_eq_true] at hs
  obtain ⟨⟨hf, h1⟩, h2⟩ := hs
  exact ⟨hf, fun t =>
    ⟨fun ht => List.mem_of_elem_eq_true (h1 t ht),
     fun ht => List.mem_of_elem_eq_true (h2 t ht)⟩⟩

theorem bucketGet_nodup (idx : Index) (wf : bucketsWF idx.ByDate)
    (k : String) : (bucketGet idx.ByDate k).Nodup := by
  unfold bucketGet
  cases hm : mapGet idx.ByDate k with
  | none => simp
  | some l => simpa using (wf k l hm).2

theorem bucketGetTag_nodup (idx : Index) (wf : bucketsWF idx.ByTag)
    (k : String) : (bucketGet idx.ByTag k).Nodup := by
  unfold bucketGet
  cases hm : mapGet idx.ByTag k with
  | none => simp
  | some l => simpa using (wf k l hm).2

theorem indexGroupingInv_add (idx : Index) (meta : Metadata)
    (hinv : IndexGroupingInv idx) (hsafe : SafeAdd idx meta = true) :
    IndexGroupingInv (idx.Add meta) := by
  obtain ⟨hWFd, hWFt, hDate, hTag⟩ := hinv
  refine ⟨?_, ?_, ?_, ?_⟩
  · intro k l hget
    rw [Add_ByDate_eq, mapGet_mapSet] at hget
    by_cases hdk : meta.Date.formatYMD = k
    · rw [if_pos hdk] at hget
      cases hget
      exact ⟨appendUnique_ne_nil _ _,
        appendUnique_nodup _ _ (bucketGet_nodup idx hWFd _)⟩
    · rw [if_neg hdk] at hget
      exact hWFd _ _ hget
  · intro k l hget
    rw [Add_ByTag_eq, addTags_mapGet] at hget
    by_cases hk : k ∈ meta.Tags
    · rw [if_pos hk] at hget
      cases hget
      exact ⟨appendUnique_ne_nil _ _,
        appendUnique_nodup _ _ (bucketGetTag_nodup idx hWFt _)⟩
    · rw [if_neg hk] at hget
      exact hWFt _ _ hget
  · intro k i
    rw [Add_ByDate_eq, bucketGet_mapSet, Add_Entries_eq]
    by_cases hdk : meta.Date.formatYMD = k <;>
      by_cases hi : meta.Id = i
    · subst hdk
      subst hi
      rw [if_pos rfl]
      constructor
      · intro _
        exact ⟨meta, by rw [mapGet_mapSet, if_pos rfl], rfl⟩
      · intro _
        exact (mem_appendUnique _ _ _).mpr (Or.inr rfl)
    · subst hdk
      rw [if_pos rfl]
      have hne : ¬ i = meta.Id := fun h => hi h.symm
      rw [mem_appendUnique]
      constructor
      · rintro (hmem | heq)
        · obtain ⟨m, hm, hf⟩ := (hDate _ i).mp hmem
          exact ⟨m, by rw [mapGet_mapSet, if_neg hi]; exact hm, hf⟩
        · exact absurd heq hne
      · rintro ⟨m, hm, hf⟩
        rw [mapGet_mapSet, if_neg hi] at hm
        exact Or.inl ((hDate _ i).mpr ⟨m, hm, hf⟩)
    · subst hi
      rw [if_neg hdk]
      constructor
      · intro hmem
        obtain ⟨m', hm', hf⟩ := (hDate k meta.Id).mp hmem
        have := (safeAdd_spec idx meta m' hm' hsafe).1
        exact absurd (this ▸ hf) hdk
      · rintro ⟨m, hm, hf⟩
        rw [mapGet_mapSet, if_pos rfl] at hm
        cases hm
        exact absurd hf hdk
    · rw [if_neg hdk]
      constructor
      · intro hmem
        obtain ⟨m, hm, hf⟩ := (hDate k i).mp hmem
        exact ⟨m, by rw [mapGet_mapSet, if_neg hi]; exact hm, hf⟩
      · rintro ⟨m, hm, hf⟩
        rw [mapGet_mapSet, if_neg hi] at hm
        exact (hDate k i).mpr ⟨m, hm, hf⟩
  · intro k i
    rw [Add_ByTag_eq, addTags_bucketGet, Add_Entries_eq]
    by_cases hk : k ∈ meta.Tags <;> by_cases hi : meta.Id = i
    · subst hi
      rw [if_pos hk]
      constructor
      · intro _
        exact ⟨meta, by rw [mapGet_mapSet, if_pos rfl], hk⟩
      · intro _
        exact (mem_appendUnique _ _ _).mpr (Or.inr rfl)
    · rw [if_pos hk]
      have hne : ¬ i = meta.Id := fun h => hi h.symm
      rw [mem_appendUnique]
      constructor
      · rintro (hmem | heq)
        · obtain ⟨m, hm, ht⟩ := (hTag k i).mp hmem
          exact ⟨m, by rw [mapGet_mapSet, if_neg hi]; exact hm, ht⟩
        · exact absurd heq hne
      · rintro ⟨m, hm, ht⟩
        rw [mapGet_mapSet, if_neg hi] at hm
        exact Or.inl ((hTag k i).mpr ⟨m, hm, ht⟩)
    · subst hi
      rw [if_neg hk]
      constructor
      · intro hmem
        obtain ⟨m', hm', ht⟩ := (hTag k meta.Id).mp hmem
        have := ((safeAdd_spec idx meta m' hm' hsafe).2 k).mp ht
        exact absurd this hk
      · rintro ⟨m, hm, ht⟩
        rw [mapGet_mapSet, if_pos rfl] at hm
        cases hm
        exact absurd ht hk
    · rw [if_neg hk]
      constructor
      · intro hmem
        obtain ⟨m, hm, ht⟩ := (hTag k i).mp hmem
        exact ⟨m, by rw [mapGet_mapSet, if_neg hi]; exact hm, ht⟩
      · rintro ⟨m, hm, ht⟩
        rw [mapGet_mapSet, if_neg hi] at hm
        exact (hTag k i).mpr ⟨m, hm, ht⟩

theorem Remove_eq_of_none (idx : Index) (id : String)
    (h : mapGet idx.Entries id = none) : idx.Remove id = idx := by
  simp [Index.Remove, h]

theorem Remove_Entries_eq (idx : Index) (id : String) (meta : Metadata)
    (h : mapGet idx.Entries id = some meta) :
    (idx.Remove id).Entries = mapDel idx.Entries id := by
  simp [Index.Remove, h]

theorem Remove_ByDate_eq (idx : Index) (id : String) (meta : Metadata)
    (h : mapGet idx.Entries id = some meta) :
    (idx.Remove id).ByDate =
      (if (removeString (bucketGet idx.ByDate meta.Date.formatYMD) id).length = 0
       then mapDel (mapSet idx.ByDate meta.Date.formatYMD
         (removeString (bucketGet idx.ByDate meta.Date.formatYMD) id))
         meta.Date.formatYMD
       else mapSet idx.ByDate meta.Date.formatYMD
         (removeString (bucketGet idx.ByDate meta.Date.formatYMD) id)) := by
  simp [Index.Remove, h]

theorem Remove_ByTag_eq (idx : Index) (id : String) (meta : Metadata)
    (h : mapGet idx.Entries id = some meta) :
    (idx.Remove id).ByTag = meta.Tags.foldl
      (fun bt tag =>
        let b := removeString (bucketGet bt tag) id
        let bt0 := mapSet bt tag b
        if b.length = 0 then mapDel bt0 tag else bt0) idx.ByTag := by
  simp [Index.Remove, h]

theorem indexGroupingInv_remove (idx : Index) (id : String)
    (hinv : IndexGroupingInv idx) : IndexGroupingInv (idx.Remove id) := by
  obtain ⟨hWFd, hWFt, hDate, hTag⟩ := hinv
  cases hm : mapGet idx.Entries id with
  | none =>
    rw [Remove_eq_of_none idx id hm]
    exact ⟨hWFd, hWFt, hDate, hTag⟩
  | some meta =>
    have hE : ∀ i, mapGet (idx.Remove id).Entries i =
        if id = i then none else mapGet idx.Entries i := by
      intro i
      rw [Remove_Entries_eq idx id meta hm, mapGet_mapDel]
    have hDget : ∀ k, mapGet (idx.Remove id).ByDate k =
        if meta.Date.formatYMD = k then
          (if (removeString (bucketGet idx.ByDate meta.Date.formatYMD)
              id).length = 0 then none
           else some (removeString (bucketGet idx.ByDate meta.Date.formatYMD)
             id))
        else mapGet idx.ByDate k := by
      intro k
      rw [Remove_ByDate_eq idx id meta hm]
      by_cases hb : (removeString (bucketGet idx.ByDate meta.Date.formatYMD)
          id).length = 0
      · rw [if_pos hb, mapGet_mapDel, mapGet_mapSet]
        by_cases hdk : meta.Date.formatYMD = k
        · rw [if_pos hdk, if_pos hdk, if_pos hb]
        · rw [if_neg hdk, if_neg hdk, if_neg hdk]
      · rw [if_neg hb, mapGet_mapSet]
        by_cases hdk : meta.Date.formatYMD = k
        · rw [if_pos hdk, if_pos hdk, if_neg hb]
        · rw [if_neg hdk, if_neg hdk]
    have hDbucket : ∀ k, bucketGet (idx.Remove id).ByDate k =
        if meta.Date.formatYMD = k then
          removeString (bucketGet idx.ByDate meta.Date.formatYMD) id
        else bucketGet idx.ByDate k := by
      intro k
      show (mapGet (idx.Remove id).ByDate k).getD [] = _
      rw [hDget]
      by_cases hdk : meta.Date.formatYMD = k
      · rw [if_pos hdk, if_pos hdk]
        by_cases hb : (removeString (bucketGet idx.ByDate meta.Date.formatYMD)
            id).length = 0
        · rw [if_pos hb]
          exact (List.length_eq_zero.mp hb).symm
        · rw [if_neg hb]
          rfl
      · rw [if_neg hdk, if_neg hdk]
        rfl
    have hTget : ∀ k, mapGet (idx.Remove id).ByTag k =
        if k ∈ meta.Tags then
          (if (removeString (bucketGet idx.ByTag k) id).length = 0 then none
           else some (removeString (bucketGet idx.ByTag k) id))
        else mapGet idx.ByTag k := by
      intro k
      rw [Remove_ByTag_eq idx id meta hm, removeTags_mapGet]
    have hTbucket : ∀ k, bucketGet (idx.Remove id).ByTag k =
        if k ∈ meta.Tags then removeString (bucketGet idx.ByTag k) id
        else bucketGet idx.ByTag k := by
      intro k
      show bucketGet (idx.Remove id).ByTag k = _
      rw [Remove_ByTag_eq idx id meta hm, removeTags_bucketGet]
    refine ⟨?_, ?_, ?_, ?_⟩
    · intro k l hget
      rw [hDget] at hget
      by_cases hdk : meta.Date.formatYMD = k
      · rw [if_pos hdk] at hget
        by_cases hb : (removeString (bucketGet idx.ByDate meta.Date.formatYMD)
            id).length = 0
        · rw [if_pos hb] at hget
          cases hget
        · rw [if_neg hb] at hget
          cases hget
          refine ⟨fun hnil => hb (by rw [hnil]; rfl), ?_⟩
          exact removeString_nodup _ _ (bucketGet_nodup idx hWFd _)
      · rw [if_neg hdk] at hget
        exact hWFd _ _ hget
    · intro k l hget
      rw [hTget] at hget
      by_cases hk : k ∈ meta.Tags
      · rw [if_pos hk] at hget
        by_cases hb : (removeString (bucketGet idx.ByTag k) id).length = 0
        · rw [if_pos hb] at hget
          cases hget
        · rw [if_neg hb] at hget
          cases hget
          refine ⟨fun hnil => hb (by rw [hnil]; rfl), ?_⟩
          exact removeString_nodup _ _ (bucketGetTag_nodup idx hWFt _)
      · rw [if_neg hk] at hget
        exact hWFt _ _ hget
    · intro k i
      rw [hDbucket, hE]
      by_cases hdk : meta.Date.formatYMD = k <;> by_cases hi : id = i
      · subst hdk
        subst hi
        rw [if_pos rfl, mem_removeString]
        constructor
        · rintro ⟨-, hne⟩
          exact absurd rfl hne
        · rintro ⟨m, hmm, -⟩
          rw [if_pos rfl] at hmm
          cases hmm
      · subst hdk
        rw [if_pos rfl, mem_removeString, if_neg hi]
        have hne : i ≠ id := fun h => hi h.symm
        constructor
        · rintro ⟨hmem, -⟩
          exact (hDate _ i).mp hmem
        · intro hex
          exact ⟨(hDate _ i).mpr hex, hne⟩
      · subst hi
        rw [if_neg hdk, if_pos rfl]
        constructor
        · intro hmem
          obtain ⟨m', hm', hf⟩ := (hDate k id).mp hmem
          rw [hm] at hm'
          cases hm'
          exact absurd hf hdk
        · rintro ⟨m, hmm, -⟩
          cases hmm
      · rw [if_neg hdk, if_neg hi]
        exact hDate k i
    · intro k i
      rw [hTbucket, hE]
      by_cases hk : k ∈ meta.Tags <;> by_cases hi : id = i
      · subst hi
        rw [if_pos hk, mem_removeString, if_pos rfl]
        constructor
        · rintro ⟨-, hne⟩
          exact absurd rfl hne
        · rintro ⟨m, hmm, -⟩
          cases hmm
      · rw [if_pos hk, mem_removeString, if_neg hi]
        have hne : i ≠ id := fun h => hi h.symm
        constructor
        · rintro ⟨hmem, -⟩
          exact (hTag k i).mp hmem
        · intro hex
          exact ⟨(hTag k i).mpr hex, hne⟩
      · subst hi
        rw [if_neg hk, if_pos rfl]
        constructor
        · intro hmem
          obtain ⟨m', hm', ht⟩ := (hTag k id).mp hmem
          rw [hm] at hm'
          cases hm'
          exact absurd ht hk
        · rintro ⟨m, hmm, -⟩
          cases hmm
      · rw [if_neg hk, if_neg hi]
        exact hTag k i

theorem indexGroupingInv_new : IndexGroupingInv NewIndex := by
  refine ⟨?_, ?_, ?_, ?_⟩
  · intro k l hget
    cases hget
  · intro k l hget
    cases hget
  · intro k i
    constructor
    · intro hmem
      cases hmem
    · rintro ⟨m, hmm, -⟩
      cases hmm
  · intro k i
    constructor
    · intro hmem
      cases hmem
    · rintro ⟨m, hmm, -⟩
      cases hmm

theorem indexGroupingInv_seq (ops : List IdxOp) :
    ∀ idx, IndexGroupingInv idx → SafeSeq idx ops = true →
    IndexGroupingInv (ops.foldl applyOp idx) := by
  induction ops with
  | nil =>
    intro idx h _
    simpa using h
  | cons op rest ih =>
    intro idx h hs
    rw [List.foldl_cons]
    cases op with
    | add m =>
      have hs2 : (SafeAdd idx m &&
          SafeSeq (applyOp idx (IdxOp.add m)) rest) = true := hs
      rw [Bool.and_eq_true] at hs2
      exact ih _ (indexGroupingInv_add idx m h hs2.1) hs2.2
    | remove i =>
      have hs2 : (true &&
          SafeSeq (applyOp idx (IdxOp.remove i)) rest) = true := hs
      rw [Bool.and_eq_true] at hs2
      exact ih _ (indexGroupingInv_remove idx i h) hs2.2

/-- C2 (amended): after every sequence of `Index.Add` / `Index.Remove`
operations from the empty index in which no `Add` overwrites an existing id
with a changed calendar day or tag set, the `ByDate` and `ByTag` maps are
exactly the groupings of the primary `Entries` map (membership matches the
grouping, buckets are duplicate-free, and no empty bucket remains);
instantiating the sequence at every prefix gives the invariant after each
operation.  Without the overwrite restriction the invariant fails: an `Add`
that re-adds an id under a different day leaves the id stale in the old
bucket (see the counterexample). -/
theorem index_grouping_invariant (ops : List IdxOp)
    (hs : SafeSeq NewIndex ops = true) :
    IndexGroupingInv (ops.foldl applyOp NewIndex) :=
  indexGroupingInv_seq ops NewIndex indexGroupingInv_new hs

/-- Witness for C2 at a concrete add/add/remove sequence. -/
theorem index_grouping_invariant_witness :
    SafeSeq NewIndex wSeqOps = true ∧
    IndexGroupingInv (wSeqOps.foldl applyOp NewIndex) :=
  ⟨by decide, index_grouping_invariant wSeqOps (by decide)⟩

/-- C2 (counterexample to the claim as stated): re-adding the id `aa` with
its date moved one day leaves `aa` in the stale `1970-01-01` bucket while the
primary map dates it `1970-01-02`, so the buckets are not the grouping of the
primary map. -/
theorem index_grouping_invariant_cex :
    ¬ IndexGroupingInv (cexDupOps.foldl applyOp NewIndex) := by
  intro h
  obtain ⟨-, -, hDate, -⟩ := h
  have hmem : "aa" ∈
      bucketGet (cexDupOps.foldl applyOp NewIndex).ByDate "1970-01-01" := by
    decide
  obtain ⟨m, hmm, hf⟩ := (hDate "1970-01-01" "aa").mp hmem
  have hmm2 : mapGet (cexDupOps.foldl applyOp NewIndex).Entries "aa" =
      some cexDupMeta2 := by decide
  rw [hmm2] at hmm
  cases hmm
  have hf2 : cexDupMeta2.Date.formatYMD = "1970-01-02" := by decide
  rw [hf2] at hf
  exact absurd hf (by decide)

/-! Lemmas for the date-range iteration. -/

theorem ediv_as_div (a b : Int) : Int.ediv a b = a / b := rfl

theorem emod_as_mod (a b : Int) : Int.emod a b = a % b := rfl

theorem sec_lt_iff_dayIndex (d e : GoTime) (hoff : d.offset = e.offset)
    (htod : d.timeOfDay ≤ e.timeOfDay) :
    (e.sec < d.sec ↔ e.dayIndex < d.dayIndex) := by
  simp only [GoTime.dayIndex, GoTime.timeOfDay, ediv_as_div, emod_as_mod,
    hoff] at *
  omega

theorem dayIndex_step (d : GoTime) :
    ({ d with sec := d.sec + 86400 } : GoTime).dayIndex = d.dayIndex + 1 := by
  simp only [GoTime.dayIndex, ediv_as_div]
  omega

theorem timeOfDay_step (d : GoTime) :
    ({ d with sec := d.sec + 86400 } : GoTime).timeOfDay = d.timeOfDay := by
  simp only [GoTime.timeOfDay, emod_as_mod]
  omega

theorem findByDateRangeLoop_mem (idx : Index) (endT : GoTime) :
    ∀ (n : Nat) (d : GoTime) (acc : List String),
    d.offset = endT.offset →
    d.timeOfDay ≤ endT.timeOfDay →
    (endT.sec + 86400 - d.sec).toNat ≤ n →
    ∀ i, (i ∈ findByDateRangeLoop idx endT.sec d acc ↔
      i ∈ acc ∨ ∃ j : Int, d.dayIndex ≤ j ∧ j ≤ endT.dayIndex ∧
        i ∈ bucketGet idx.ByDate (dayString j)) := by
  intro n
  induction n with
  | zero =>
    intro d acc hoff htod hn i
    have hstop : endT.sec < d.sec := by omega
    have hday : endT.dayIndex < d.dayIndex :=
      (sec_lt_iff_dayIndex d endT hoff htod).mp hstop
    unfold findByDateRangeLoop
    rw [if_pos hstop]
    constructor
    · exact Or.inl
    · rintro (h | ⟨j, hj1, hj2, -⟩)
      · exact h
      · omega
  | succ n ih =>
    intro d acc hoff htod hn i
    by_cases hstop : endT.sec < d.sec
    · have hday : endT.dayIndex < d.dayIndex :=
        (sec_lt_iff_dayIndex d endT hoff htod).mp hstop
      unfold findByDateRangeLoop
      rw [if_pos hstop]
      constructor
      · exact Or.inl
      · rintro (h | ⟨j, hj1, hj2, -⟩)
        · exact h
        · omega
    · have hle : d.sec ≤ endT.sec := by omega
      have hDd : d.dayIndex ≤ endT.dayIndex := by
        have := (sec_lt_iff_dayIndex d endT hoff htod).not
        omega
      have hrec := ih { d with sec := d.sec + 86400 }
        (addUniqueAll acc (bucketGet idx.ByDate d.formatYMD)) hoff
        (by rw [timeOfDay_step]; exact htod)
        (by show (endT.sec + 86400 - (d.sec + 86400)).toNat ≤ n; omega) i
      rw [dayIndex_step, mem_addUniqueAll] at hrec
      unfold findByDateRangeLoop
      rw [if_neg hstop]
      rw [hrec]
      constructor
      · rintro ((hacc | hbkt) | ⟨j, hj1, hj2, hP⟩)
        · exact Or.inl hacc
        · exact Or.inr ⟨d.dayIndex, le_refl _, hDd, hbkt⟩
        · exact Or.inr ⟨j, by omega, hj2, hP⟩
      · rintro (hacc | ⟨j, hj1, hj2, hP⟩)
        · exact Or.inl (Or.inl hacc)
        · by_cases hj : j = d.dayIndex
          · subst hj
            exact Or.inl (Or.inr hP)
          · exact Or.inr ⟨j, by omega, hj2, hP⟩

/-- C8 (amended): when start and end share a fixed offset and the time of day
of end is no earlier than that of start (in particular whenever both denote
whole-day bounds or the same instant), `FindByDateRange` returns,
deduplicated, exactly the union of the per-day buckets of every calendar day
from the day of start through the day of end inclusive; and for every
timestamp d, `FindByDateRange(d, d)` holds the same ids as `FindByDate(d)`.
When the time of day of end is earlier than that of start, the iteration can
stop before reaching the day of end (see the counterexample), so the claim's
unconditional whole-day union does not hold. -/
theorem findByDateRange_union (idx : Index) (startT endT : GoTime)
    (hoff : startT.offset = endT.offset)
    (hse : startT.sec ≤ endT.sec)
    (htod : startT.timeOfDay ≤ endT.timeOfDay) :
    (∀ i, i ∈ idx.FindByDateRange startT endT ↔
      ∃ j : Int, startT.dayIndex ≤ j ∧ j ≤ endT.dayIndex ∧
        i ∈ bucketGet idx.ByDate (dayString j))
    ∧ (∀ (d : GoTime) (i : String),
        i ∈ idx.FindByDateRange d d ↔ i ∈ idx.FindByDate d) := by
  constructor
  · intro i
    have h := findByDateRangeLoop_mem idx endT
      ((endT.sec + 86400 - startT.sec).toNat) startT [] hoff htod
      (le_refl _) i
    unfold Index.FindByDateRange
    rw [h]
    simp only [List.not_mem_nil, false_or]
  · intro d i
    have h := findByDateRangeLoop_mem idx d
      ((d.sec + 86400 - d.sec).toNat) d [] rfl (le_refl _) (le_refl _) i
    unfold Index.FindByDateRange
    rw [h]
    constructor
    · rintro (hnil | ⟨j, hj1, hj2, hP⟩)
      · cases hnil
      · have hj : j = d.dayIndex := le_antisymm hj2 hj1
        subst hj
        exact hP
    · intro hmem
      exact Or.inr ⟨d.dayIndex, le_refl _, le_refl _, hmem⟩

/-- Witness for C8 at a concrete index and range spanning two days. -/
theorem findByDateRange_union_witness :
    ({ sec := 0, offset := 0 } : GoTime).offset =
      ({ sec := 90000, offset := 0 } : GoTime).offset ∧
    ({ sec := 0, offset := 0 } : GoTime).sec ≤
      ({ sec := 90000, offset := 0 } : GoTime).sec ∧
    ({ sec := 0, offset := 0 } : GoTime).timeOfDay ≤
      ({ sec := 90000, offset := 0 } : GoTime).timeOfDay ∧
    ((∀ i, i ∈ cexRangeIdx.FindByDateRange { sec := 0, offset := 0 }
        { sec := 90000, offset := 0 } ↔
      ∃ j : Int, ({ sec := 0, offset := 0 } : GoTime).dayIndex ≤ j ∧
        j ≤ ({ sec := 90000, offset := 0 } : GoTime).dayIndex ∧
        i ∈ bucketGet cexRangeIdx.ByDate (dayString j))
    ∧ (∀ (d : GoTime) (i : String),
        i ∈ cexRangeIdx.FindByDateRange d d ↔ i ∈ cexRangeIdx.FindByDate d)) :=
  ⟨rfl, by decide, by decide,
    findByDateRange_union cexRangeIdx { sec := 0, offset := 0 }
      { sec := 90000, offset := 0 } rfl (by decide) (by decide)⟩

/-- C8 (counterexample to the claim as stated): with start at noon of
1970-01-01 and end at 00:30 of 1970-01-02 (start ≤ end), the bucket of the
end day holds `e1`, yet `FindByDateRange` returns the empty list: the day
iteration steps by whole days from start and overshoots end before reaching
the end day, so the union misses that whole calendar day. -/
theorem findByDateRange_skips_end_day :
    ({ sec := 43200, offset := 0 } : GoTime).sec ≤
      ({ sec := 88200, offset := 0 } : GoTime).sec
    ∧ ({ sec := 88200, offset := 0 } : GoTime).formatYMD = "1970-01-02"
    ∧ "e1" ∈ cexRangeIdx.FindByDate { sec := 88200, offset := 0 }
    ∧ cexRangeIdx.FindByDateRange { sec := 43200, offset := 0 }
        { sec := 88200, offset := 0 } = [] := by
  refine ⟨by decide, by decide, by decide, ?_⟩
  show findByDateRangeLoop cexRangeIdx 88200 { sec := 43200, offset := 0 } []
    = []
  rw [findByDateRangeLoop,
    if_neg (show ¬ (88200 : Int) <
      ({ sec := 43200, offset := 0 } : GoTime).sec by decide),
    show addUniqueAll [] (bucketGet cexRangeIdx.ByDate
      (GoTime.formatYMD { sec := 43200, offset := 0 })) = [] by decide,
    findByDateRangeLoop,
    if_pos (show (88200 : Int) <
      ({ sec := ({ sec := 43200, offset := 0 } : GoTime).sec + 86400,
         offset := ({ sec := 43200, offset := 0 } : GoTime).offset } :
           GoTime).sec by decide)]
